import Mathlib

/-!
Verification of `jobright_scrape.py`: a shallow embedding of its record
discovery, field normalization and pagination logic, followed by theorems
about the spec's claims.

JSON values are modelled as a tree; Python dicts (as produced by
`json.loads`, hence with unique keys in insertion order) are association
lists.  Python `None` is `JSON.null`; absence of a dict key is absence of
the pair from the list.
-/

namespace JobRight

/-- A parsed JSON value, as Python's `json.loads` produces it.  Numbers are
modelled as integers (the payload ids the claims exercise are integers or
strings). -/
inductive JSON where
  | null
  | bool (b : Bool)
  | num (n : Int)
  | str (s : String)
  | arr (elems : List JSON)
  | obj (fields : List (String × JSON))

namespace JSON

/-- Python truthiness (`bool(v)`) on a JSON value: `None`, `False`, `0`,
`""`, `[]`, `{}` are falsy, everything else truthy. -/
def truthy : JSON → Bool
  | .null => false
  | .bool b => b
  | .num n => n != 0
  | .str s => s != ""
  | .arr xs => !xs.isEmpty
  | .obj kvs => !kvs.isEmpty

/-- `d.get(k)` on a Python dict with unique keys: the value at `k`, if
present. -/
def get? (kvs : List (String × JSON)) (k : String) : Option JSON :=
  (kvs.find? (fun p => p.1 = k)).map Prod.snd

/-- `k in d` on a Python dict. -/
def hasKey (kvs : List (String × JSON)) (k : String) : Bool :=
  kvs.any (fun p => p.1 = k)

end JSON

open JSON

mutual

/-- Python `str(v)` / f-string interpolation of a JSON value.  `repr` of
nested strings is modelled without escaping (the scraper only ever
stringifies ids, which are integers or strings). -/
def pyStr : JSON → String
  | .null => "None"
  | .bool true => "True"
  | .bool false => "False"
  | .num n => toString n
  | .str s => s
  | .arr xs => "[" ++ String.intercalate ", " (pyReprList xs) ++ "]"
  | .obj kvs => "\x7b" ++ String.intercalate ", " (pyReprFields kvs) ++ "\x7d"

def pyReprList : List JSON → List String
  | [] => []
  | .str s :: xs => ("'" ++ s ++ "'") :: pyReprList xs
  | x :: xs => pyStr x :: pyReprList xs

def pyReprFields : List (String × JSON) → List String
  | [] => []
  | (k, .str s) :: kvs => ("'" ++ k ++ "': " ++ ("'" ++ s ++ "'")) :: pyReprFields kvs
  | (k, v) :: kvs => ("'" ++ k ++ "': " ++ pyStr v) :: pyReprFields kvs

end

/-- Python `repr(v)`. -/
def pyRepr : JSON → String
  | .str s => "'" ++ s ++ "'"
  | v => pyStr v

/-- `_pick(d, *keys)`: the value of the first listed key that is present
with a non-`None` value; `None` (here `none`) otherwise. -/
def pick (kvs : List (String × JSON)) : List String → Option JSON
  | [] => none
  | k :: ks =>
    match get? kvs k with
    | some .null => pick kvs ks
    | some v => some v
    | none => pick kvs ks

def PROFILE_KEYS : List String := ["firstName", "fullName", "linkedinUrl"]
def ID_KEYS : List String := ["jobInfoId", "jobId", "job_id", "jobID", "id"]
def TITLE_KEYS : List String := ["jobTitle", "title", "positionTitle", "name"]
def COMPANY_KEYS : List String := ["companyName", "company", "company_name"]
def APPLY_KEYS : List String :=
  ["applyUrl", "applyURL", "applyLink", "externalUrl", "sourceUrl", "url", "originalUrl"]

/-- `keys & S` nonempty, for a key list and a key set. -/
def keysMeet (keys : List String) (s : List String) : Bool :=
  keys.any (fun k => s.contains k)

/-- `_extract_job_dicts.is_job`: the structural job-candidate predicate on
the keys of a dict. -/
def is_job (kvs : List (String × JSON)) : Bool :=
  let keys := kvs.map Prod.fst
  if keysMeet keys PROFILE_KEYS then false
  else
    keysMeet keys ID_KEYS && keysMeet keys TITLE_KEYS &&
      (keysMeet keys COMPANY_KEYS || keysMeet keys APPLY_KEYS)

mutual

/-- `_extract_job_dicts.walk`: depth-first pre-order collection of every
dict satisfying `is_job`, descending into dict values and list elements. -/
def walk : JSON → List (List (String × JSON))
  | .obj kvs => (if is_job kvs then [kvs] else []) ++ walkFields kvs
  | .arr xs => walkList xs
  | _ => []

def walkList : List JSON → List (List (String × JSON))
  | [] => []
  | x :: xs => walk x ++ walkList xs

def walkFields : List (String × JSON) → List (List (String × JSON))
  | [] => []
  | (_, v) :: kvs => walk v ++ walkFields kvs

end

/-- `_extract_job_dicts(obj)`. -/
def extract_job_dicts (x : JSON) : List (List (String × JSON)) := walk x

mutual

/-- All mapping sub-objects of a JSON value in depth-first pre-order
(a parent before its descendants); the spec-side enumeration that
`extract_job_dicts` filters. -/
def allObjs : JSON → List (List (String × JSON))
  | .obj kvs => kvs :: allObjsFields kvs
  | .arr xs => allObjsList xs
  | _ => []

def allObjsList : List JSON → List (List (String × JSON))
  | [] => []
  | x :: xs => allObjs x ++ allObjsList xs

def allObjsFields : List (String × JSON) → List (List (String × JSON))
  | [] => []
  | (_, v) :: kvs => allObjs v ++ allObjsFields kvs

end

/-! ### Stdlib models: `urllib.parse.urlparse(..).path` and substring test -/

/-- A character allowed in a URL scheme (`urllib.parse.scheme_chars`). -/
def schemeChar (c : Char) : Bool :=
  c.isAlpha || c.isDigit || c = '+' || c = '-' || c = '.'

/-- Split a character list at the first occurrence of `sep`:
`(before, after)`, the separator dropped. -/
def splitFirst (sep : Char) : List Char → Option (List Char × List Char)
  | [] => none
  | c :: cs =>
    if c = sep then some ([], cs)
    else (splitFirst sep cs).map (fun p => (c :: p.1, p.2))

/-- Model of `urllib.parse.urlparse(url).path`: strip a `scheme:` prefix
when the part before the first colon is made of scheme characters, strip a
`//netloc` (up to the next `/`, `?` or `#`), then truncate at the first
`#` and at the first `?`. -/
def urlparsePath (url : String) : String :=
  let cs := url.data
  let cs := match splitFirst ':' cs with
    | some (pre, rest) => if !pre.isEmpty && pre.all schemeChar then rest else cs
    | none => cs
  let cs := match cs with
    | '/' :: '/' :: rest => rest.dropWhile (fun c => c ≠ '/' && c ≠ '?' && c ≠ '#')
    | _ => cs
  let cs := cs.takeWhile (fun c => c ≠ '#')
  let cs := cs.takeWhile (fun c => c ≠ '?')
  String.mk cs

/-- Python `str.strip()`: drop leading and trailing whitespace. -/
def strTrim (s : String) : String :=
  String.mk (((s.data.dropWhile Char.isWhitespace).reverse.dropWhile
    Char.isWhitespace).reverse)

/-- Python `str.lower()` (ASCII case folding). -/
def strToLower (s : String) : String :=
  String.mk (s.data.map Char.toLower)

/-- Prefix test on character lists. -/
def listStartsWith : List Char → List Char → Bool
  | [], _ => true
  | _ :: _, [] => false
  | p :: ps, c :: cs => p = c && listStartsWith ps cs

/-- Occurrence of `pat` anywhere in `s`. -/
def listContains (pat : List Char) : List Char → Bool
  | [] => pat.isEmpty
  | c :: rest => listStartsWith pat (c :: rest) || listContains pat rest

/-- Python `pat in s` substring test. -/
def strContains (s pat : String) : Bool :=
  listContains pat.data s.data

/-! ### Models of the two compiled regular expressions -/

/-- A character of the character class in `_COMPANY_FROM_SUMMARY`:
`[A-Za-z0-9&.,'’\- ]`. -/
def summaryChar (c : Char) : Bool :=
  c.isAlpha || c.isDigit || c = '&' || c = '.' || c = ',' || c = '\'' ||
    c = '’' || c = '-' || c = ' '

/-- `\s+is\s+` matched at the front of `cs` (anything may follow). -/
def wsIsWs (cs : List Char) : Bool :=
  let ws := cs.takeWhile Char.isWhitespace
  !ws.isEmpty &&
    (match cs.drop ws.length with
     | 'i' :: 's' :: c :: _ => c.isWhitespace
     | _ => false)

/-- Greedy search for the group of `_COMPANY_FROM_SUMMARY`: the longest
extension of `head` by `1..k` class characters that is followed by
`\s+is\s+`. -/
def tryGroup (head : Char) (tail : List Char) : Nat → Option String
  | 0 => none
  | k + 1 =>
    let cand := tail.take (k + 1)
    if cand.length = k + 1 && cand.all summaryChar && wsIsWs (tail.drop (k + 1))
    then some (String.mk (head :: cand))
    else tryGroup head tail k

/-- `_COMPANY_FROM_SUMMARY.match(s)`, returning `group(1)`:
`^([A-Z][A-Za-z0-9&.,'’\- ]{1,80})\s+is\s+`. -/
def companyFromSummary (s : String) : Option String :=
  match s.data with
  | [] => none
  | c :: rest => if c.isUpper then tryGroup c rest 80 else none

/-- A character of the group class in `_COMPANY_FROM_LOGO`: `[A-Za-z0-9-]`. -/
def logoClassChar (c : Char) : Bool :=
  c.isAlpha || c.isDigit || c = '-'

/-- Case-insensitive prefix test against an already-lowercased pattern. -/
def startsWithCI (pat : List Char) (cs : List Char) : Bool :=
  match pat, cs with
  | [], _ => true
  | _ :: _, [] => false
  | p :: ps, c :: rest => c.toLower = p && startsWithCI ps rest

/-- `_COMPANY_FROM_LOGO.search(path)`, returning `group(1)`: the leftmost
`/([A-Za-z0-9-]+)_logo` (case-insensitive). -/
def companyFromLogo : List Char → Option String
  | [] => none
  | c :: rest =>
    if c = '/' then
      let run := rest.takeWhile logoClassChar
      if !run.isEmpty && startsWithCI "_logo".data (rest.drop run.length)
      then some (String.mk run)
      else companyFromLogo rest
    else companyFromLogo rest

/-! ### `extract_company` -/

/-- Strategy 1 of `extract_company`: direct alias probe on the candidate,
re-probing a nested mapping value. -/
def companyDirect (job : List (String × JSON)) : Option String :=
  let company := pick job
    ["companyName", "company", "company_name", "jdCompanyName",
     "companyDisplayName", "companyTitle"]
  let company := match company with
    | some (.obj kvs) => pick kvs ["name", "companyName"]
    | c => c
  match company with
  | some (.str s) => if strTrim s ≠ "" then some (strTrim s) else none
  | _ => none

/-- Strategy 2: probe the nested company-info sub-objects
`companyInfo`, `companyVO`, `companyDto`. -/
def companyNestedGo (job : List (String × JSON)) : List String → Option String
  | [] => none
  | k :: ks =>
    match get? job k with
    | some (.obj kvs) =>
      match pick kvs ["name", "companyName", "displayName"] with
      | some (.str s) => if strTrim s ≠ "" then some (strTrim s) else companyNestedGo job ks
      | _ => companyNestedGo job ks
    | _ => companyNestedGo job ks

def companyNested (job : List (String × JSON)) : Option String :=
  companyNestedGo job ["companyInfo", "companyVO", "companyDto"]

/-- Strategy 3: scan the `socialConnections` list for a contact with a
non-blank `companyName` string. -/
def companySocialGo : List JSON → Option String
  | [] => none
  | .obj p :: rest =>
    (match get? p "companyName" with
     | some (.str s) => if strTrim s ≠ "" then some (strTrim s) else companySocialGo rest
     | _ => companySocialGo rest)
  | _ :: rest => companySocialGo rest

def companySocial (job : List (String × JSON)) : Option String :=
  match get? job "socialConnections" with
  | some (.arr sc) => companySocialGo sc
  | _ => none

/-- Strategy 4: match `_COMPANY_FROM_SUMMARY` on the stripped `jobSummary`
and strip the captured group. -/
def companySummary (job : List (String × JSON)) : Option String :=
  match get? job "jobSummary" with
  | some (.str s) =>
    if strTrim s ≠ "" then (companyFromSummary (strTrim s)).map strTrim else none
  | _ => none

/-- Strategy 5: capture the segment before `_logo` in the `jdLogo` URL's
path, verbatim. -/
def companyLogo (job : List (String × JSON)) : Option String :=
  match get? job "jdLogo" with
  | some (.str s) =>
    if strTrim s ≠ "" then companyFromLogo (urlparsePath s).data else none
  | _ => none

/-- `extract_company(job)`: the five strategies tried in order, first
success winning. -/
def extract_company (job : List (String × JSON)) : Option String :=
  match companyDirect job with
  | some c => some c
  | none =>
    match companyNested job with
    | some c => some c
    | none =>
      match companySocial job with
      | some c => some c
      | none =>
        match companySummary job with
        | some c => some c
        | none => companyLogo job

/-! ### `extract_linkedin_recruiters` -/

/-- `any(x in title_l for x in ("recruit", "talent", "sourc", "hr"))` on
the lowercased title. -/
def recruiterTitleMatch (title : String) : Bool :=
  let t := strToLower title
  strContains t "recruit" || strContains t "talent" ||
    strContains t "sourc" || strContains t "hr"

/-- The dict appended for each kept social connection. -/
def mkRecruiter (p : List (String × JSON)) : JSON :=
  let fn := (get? p "fullName").getD .null
  let firstRaw := if hasKey p "firstName" then (get? p "firstName").getD .null else .str ""
  let fallback := strTrim (pyStr firstRaw)
  let fullName :=
    if fn.truthy then fn
    else if fallback ≠ "" then .str fallback else .null
  .obj
    [("fullName", fullName),
     ("jobTitle", (get? p "jobTitle").getD .null),
     ("companyName", (get? p "companyName").getD .null),
     ("linkedinUrl", (get? p "linkedinUrl").getD .null)]

/-- The per-entry loop of `extract_linkedin_recruiters`.  `title.lower()`
raises `AttributeError` when `(p.get("jobTitle") or "")` is a truthy
non-string; the exception is the `Except.error` case. -/
def recruitersGo : List JSON → Except String (List JSON)
  | [] => .ok []
  | .obj p :: rest =>
    let titleVal := (get? p "jobTitle").getD .null
    let titleOr := if titleVal.truthy then titleVal else .str ""
    (match titleOr with
     | .str t =>
       if recruiterTitleMatch t then
         match recruitersGo rest with
         | .ok l => .ok (mkRecruiter p :: l)
         | .error e => .error e
       else recruitersGo rest
     | _ => .error "AttributeError: object has no attribute lower")
  | _ :: rest => recruitersGo rest

/-- `extract_linkedin_recruiters(job)`. -/
def extract_linkedin_recruiters (job : List (String × JSON)) :
    Except String (List JSON) :=
  match get? job "socialConnections" with
  | some (.arr sc) => recruitersGo sc
  | _ => .ok []

/-! ### `extract_keywords` -/

/-- The keyword candidates gathered from `jdCoreSkills`, in source order. -/
def kwCore (job : List (String × JSON)) : List String :=
  match get? job "jdCoreSkills" with
  | some (.arr xs) =>
    xs.filterMap fun x =>
      match x with
      | .obj kvs =>
        (match get? kvs "skill" with
         | some (.str s) => some s
         | _ => none)
      | _ => none
  | _ => []

/-- The keyword candidates gathered from `skillMatchingScores`:
`displayName or featureName` when that is a string. -/
def kwScores (job : List (String × JSON)) : List String :=
  match get? job "skillMatchingScores" with
  | some (.arr xs) =>
    xs.filterMap fun x =>
      match x with
      | .obj kvs =>
        let d := (get? kvs "displayName").getD .null
        let name := if d.truthy then d else (get? kvs "featureName").getD .null
        (match name with
         | .str s => some s
         | _ => none)
      | _ => none
  | _ => []

/-- String elements of a list-valued field. -/
def kwStrList (job : List (String × JSON)) (k : String) : List String :=
  match get? job k with
  | some (.arr xs) =>
    xs.filterMap fun x =>
      match x with
      | .str s => some s
      | _ => none
  | _ => []

/-- The `firstTaxonomy` field when it is a string. -/
def kwFirstTaxonomy (job : List (String × JSON)) : List String :=
  match get? job "firstTaxonomy" with
  | some (.str s) => [s]
  | _ => []

/-- All keyword candidates in the fixed source priority order. -/
def kwSources (job : List (String × JSON)) : List String :=
  kwCore job ++ kwScores job ++ kwStrList job "recommendationTags" ++
    kwStrList job "jobTags" ++ kwStrList job "jobTaxonomyV3" ++
    kwFirstTaxonomy job

/-- The trim/drop-empty/dedup/cap loop at the end of `extract_keywords`:
`outLen` is the number of keywords already emitted, `seen` the set of
emitted keywords. -/
def kwDedup (maxKw : Nat) (outLen : Nat) (seen : List String) :
    List String → List String
  | [] => []
  | x :: xs =>
    let y := strTrim x
    if y = "" || seen.contains y then kwDedup maxKw outLen seen xs
    else if maxKw ≤ outLen + 1 then [y]
    else y :: kwDedup maxKw (outLen + 1) (y :: seen) xs

/-- `extract_keywords(job, max_kw)` (the source default is `max_kw = 25`). -/
def extract_keywords (job : List (String × JSON)) (maxKw : Nat) : List String :=
  kwDedup maxKw 0 [] (kwSources job)

/-! ### `fetch_recommendations_via_api` -/

def BASE : String := "https://jobright.ai"

def RECS_PAGE : String := BASE ++ "/jobs/recommend"

def RECS_API : String := BASE ++ "/swan/recommend/list/jobs"

/-- Model of `urljoin(BASE, u)` for a `u` starting with `/` (the only case
the source applies it to): a protocol-relative `//…` keeps the base's
scheme, otherwise the path is resolved against the base origin. -/
def urljoinBase (u : String) : String :=
  if listStartsWith "//".data u.data then "https:" ++ u else BASE ++ u

/-- `fetch_recommendations_via_api.norm_url`. -/
def norm_url (u : Option JSON) : Option String :=
  match u with
  | some (.str s) =>
    if strTrim s = "" then none
    else if listStartsWith "/".data (strTrim s).data then some (urljoinBase (strTrim s))
    else some (strTrim s)
  | _ => none

/-- An HTTP response as the loop sees it: the status code and the parsed
JSON body. -/
structure Resp where
  status : Nat
  body : JSON

/-- The observable side effects of a run: session-state file reads and
writes, page navigations, API requests, and the debug-payload dump. -/
inductive Ev where
  | readState
  | navigate
  | request (url : String)
  | writeState
  | dumpDebug
deriving DecidableEq, Repr

/-- A canonical job record, one entry of the returned `out` list.  `none`
stands for Python `None`. -/
structure Rec where
  jobId : Option String
  title : Option JSON
  company : Option JSON
  location : Option JSON
  jobright_url : Option String
  apply_url : Option String
  linkedin_recruiters : List JSON
  keywords : List String
  raw : List (String × JSON)

/-- `str(job_id) if job_id is not None else None`, probing the id aliases
in the loop's order. -/
def probeId (j : List (String × JSON)) : Option String :=
  (pick j ["jobInfoId", "jobId", "id", "job_id", "jobID"]).map pyStr

/-- The inline company resolution of the loop: direct three-alias probe,
nested-mapping re-probe, and `extract_company` when the result is falsy. -/
def recCompany (j : List (String × JSON)) : Option JSON :=
  let c := pick j ["companyName", "company", "company_name"]
  let c := match c with
    | some (.obj kvs) => pick kvs ["name", "companyName"]
    | x => x
  let cv := c.getD .null
  if cv.truthy then some cv else (extract_company j).map JSON.str

/-- The inline location resolution of the loop. -/
def recLocation (j : List (String × JSON)) : Option JSON :=
  let l := pick j ["jobLocation", "location", "locationName", "city"]
  match l with
  | some (.obj kvs) => pick kvs ["name", "displayName"]
  | x => x

/-- The record built for one job dict, given the already-extracted
recruiters list. -/
def buildRec (j : List (String × JSON)) (recruiters : List JSON) : Rec :=
  let idStr := probeId j
  let jru := norm_url (pick j ["detailUrl", "jobUrl", "infoUrl", "jobrightUrl"])
  { jobId := idStr
    title := pick j ["jobTitle", "title", "positionTitle", "name"]
    company := recCompany j
    location := recLocation j
    jobright_url :=
      match jru with
      | some u => some u
      | none =>
        match idStr with
        | some s => if s ≠ "" then some (BASE ++ "/jobs/info/" ++ s) else none
        | none => none
    apply_url := norm_url (pick j APPLY_KEYS)
    linkedin_recruiters := recruiters
    keywords := extract_keywords j 25
    raw := j }

/-- `job_id_str and job_id_str in seen_ids`: the skip-duplicate test. -/
def skipDup (idStr : Option String) (seen : List String) : Bool :=
  match idStr with
  | some s => s ≠ "" && seen.contains s
  | none => false

/-- `if job_id_str: seen_ids.add(job_id_str)`: the seen-set update after an
append. -/
def seenUpd (idStr : Option String) (seen : List String) : List String :=
  match idStr with
  | some s => if s ≠ "" then s :: seen else seen
  | none => seen

/-- The per-page `for j in job_dicts` loop: skip seen ids, build and
append each record, extend the seen set with truthy ids, count newly
added records, and break once `out` reaches `max_items`.  The
`AttributeError` that `extract_linkedin_recruiters` can raise propagates
as the `Except.error` case. -/
def processJobs (maxItems : Nat) :
    List (List (String × JSON)) → List Rec → List String → Nat →
      Except String (List Rec × List String × Nat)
  | [], out, seen, added => .ok (out, seen, added)
  | j :: rest, out, seen, added =>
    if skipDup (probeId j) seen then processJobs maxItems rest out seen added
    else
      match extract_linkedin_recruiters j with
      | .error e => .error e
      | .ok recruiters =>
        let out' := out ++ [buildRec j recruiters]
        let seen' := seenUpd (probeId j) seen
        if maxItems ≤ out'.length then .ok (out', seen', added + 1)
        else processJobs maxItems rest out' seen' (added + 1)

/-- `urlencode` of the query dict, in its insertion order (every value is
made of URL-safe characters). -/
def mkQuery (refresh : Bool) (sortCondition : Int) (position count : Nat) : String :=
  "refresh=" ++ (if refresh then "true" else "false") ++
    "&sortCondition=" ++ toString sortCondition ++
    "&position=" ++ toString position ++
    "&count=" ++ toString count

def mkUrl (refresh : Bool) (sortCondition : Int) (position count : Nat) : String :=
  RECS_API ++ "?" ++ mkQuery refresh sortCondition position count

/-- The auth-failure message of the `PermissionError`. -/
def authMsg (url : String) (status : Nat) : String :=
  "Auth failed calling " ++ url ++ " (HTTP " ++ toString status ++
    "). Run with --login again."

/-- A run-ending exception: the `PermissionError` raised on persistent
401/403, or the `AttributeError` escaping from normalization. -/
inductive RunErr where
  | permissionError (msg : String)
  | attributeError (msg : String)
deriving DecidableEq, Repr

/-- The GET with one re-authentication retry on 401/403: responses are
drawn from the oracle `api` at successive request indices; returns the
final response, the next request index, and the events produced. -/
def doRequest (api : Nat → Resp) (k : Nat) (url : String) :
    Resp × Nat × List Ev :=
  let r := api k
  if r.status = 401 || r.status = 403 then
    (api (k + 1), k + 2, [.request url, .navigate, .request url])
  else (r, k + 1, [.request url])

/-- The mutable state of the pagination `while` loop. -/
structure LoopSt where
  out : List Rec
  seen : List String
  position : Nat
  refresh : Bool
  k : Nat

/-- The pagination `while len(out) < max_items` loop, fuelled; `none` is
fuel exhaustion (never reached with enough fuel).  Events of every
iteration are concatenated in order. -/
def runLoop (api : Nat → Resp) (maxItems pageSize : Nat) (sortCondition : Int) :
    Nat → LoopSt → Option (Except RunErr (List Rec) × List Ev)
  | 0, _ => none
  | fuel + 1, s =>
    if s.out.length < maxItems then
      let count := min pageSize (maxItems - s.out.length)
      let url := mkUrl s.refresh sortCondition s.position count
      let (resp, k', evs) := doRequest api s.k url
      if resp.status = 401 || resp.status = 403 then
        some (.error (.permissionError (authMsg url resp.status)), evs)
      else if resp.status ≠ 200 then some (.ok s.out, evs)
      else
        let jobs := extract_job_dicts resp.body
        if jobs.isEmpty then some (.ok s.out, evs ++ [.dumpDebug])
        else
          match processJobs maxItems jobs s.out s.seen 0 with
          | .error e => some (.error (.attributeError e), evs)
          | .ok (out', seen', added) =>
            if added = 0 then some (.ok out', evs)
            else
              match runLoop api maxItems pageSize sortCondition fuel
                  ⟨out', seen', s.position + count, false, k'⟩ with
              | some (res, evs') => some (res, evs ++ evs')
              | none => none
    else some (.ok s.out, [])

/-- The initial loop state: empty accumulator and seen set, offset 0,
`refresh = "true"`. -/
def initSt : LoopSt := ⟨[], [], 0, true, 0⟩

/-- `fetch_recommendations_via_api(max_items, sort_condition, page_size)`
(source defaults: `sort_condition = 0`, `page_size = 10`): read the
session state, navigate to the recommendations page, run the loop, and
rewrite the session state — the rewrite is skipped when an exception
aborts the run. -/
def fetchRun (api : Nat → Resp) (maxItems pageSize : Nat) (sortCondition : Int)
    (fuel : Nat) : Option (Except RunErr (List Rec) × List Ev) :=
  match runLoop api maxItems pageSize sortCondition fuel initSt with
  | some (.ok out, evs) =>
    some (.ok out, [Ev.readState, Ev.navigate] ++ evs ++ [Ev.writeState])
  | some (.error e, evs) => some (.error e, [Ev.readState, Ev.navigate] ++ evs)
  | none => none

/-- The sequence of job ids of the returned records, when the run
completed without error. -/
def resultIds (r : Option (Except RunErr (List Rec) × List Ev)) :
    Option (List (Option String)) :=
  match r with
  | some (.ok out, _) => some (out.map Rec.jobId)
  | _ => none

/-- The event trace of a completed run. -/
def traceOf (r : Option (Except RunErr (List Rec) × List Ev)) :
    Option (List Ev) :=
  match r with
  | some (_, evs) => some evs
  | none => none

/-- The records of a run that completed without error, `[]` otherwise. -/
def okRecords (r : Option (Except RunErr (List Rec) × List Ev)) : List Rec :=
  match r with
  | some (.ok out, _) => out
  | _ => []

/-- Whether an event is an API request. -/
def isRequest : Ev → Bool
  | .request _ => true
  | _ => false

/-! ### Claim-side definitions and concrete scenarios -/

/-- The keys of a mapping that carry non-null values. -/
def nonNullKeys (kvs : List (String × JSON)) : List String :=
  (kvs.filter fun p =>
    match p.2 with
    | .null => false
    | _ => true).map Prod.fst

/-- The job-candidate predicate in the words of the specification: the key
set `K` is restricted to keys whose values are non-null.  Stated for
comparison with the implemented `is_job`, which uses all present keys. -/
def specIsJob (kvs : List (String × JSON)) : Bool :=
  let K := nonNullKeys kvs
  !keysMeet K PROFILE_KEYS && keysMeet K ID_KEYS && keysMeet K TITLE_KEYS &&
    (keysMeet K COMPANY_KEYS || keysMeet K APPLY_KEYS)

/-- The first non-`none` entry of a list of options. -/
def firstSome : List (Option α) → Option α
  | [] => none
  | some a :: _ => some a
  | none :: rest => firstSome rest

/-- The trim/drop-empty/first-seen-dedup loop without the cap: the list
`extract_keywords` truncates. -/
def dedupTrim (seen : List String) : List String → List String
  | [] => []
  | x :: xs =>
    let y := strTrim x
    if y = "" || seen.contains y then dedupTrim seen xs
    else y :: dedupTrim (y :: seen) xs

/-- The distinct cleaned keywords available to `extract_keywords`, in
first-seen order over the fixed source priority. -/
def cleanKws (job : List (String × JSON)) : List String :=
  dedupTrim [] (kwSources job)

/-- The non-empty ids present on a result sequence, in order. -/
def presentNonemptyIds (out : List Rec) : List String :=
  (out.filterMap Rec.jobId).filter fun s => s ≠ ""

/-- A minimal job-shaped payload object with id `i`. -/
def mkJob (i : String) : JSON :=
  .obj [("jobInfoId", .str i), ("jobTitle", .str "T"), ("companyName", .str "Acme")]

/-- A job-shaped object whose identifier keys all carry null values: the
C1 counterexample input. -/
def nullIdJob : List (String × JSON) :=
  [("id", .null), ("title", .null), ("companyName", .null)]

/-- A job candidate whose social connections carry a non-string
`jobTitle`: the C2 failing input. -/
def c2Job : List (String × JSON) :=
  [("jobInfoId", .num 1), ("jobTitle", .str "SWE"), ("companyName", .str "Acme"),
   ("socialConnections", .arr [.obj [("jobTitle", .num 123)]])]

/-- A job candidate none of whose identifier aliases carries a non-null
value. -/
def noIdJob : List (String × JSON) :=
  [("id", .null), ("jobTitle", .str "T"), ("companyName", .str "Acme")]

/-- An oracle returning the same two-record page on every call. -/
def stallApi : Nat → Resp :=
  fun _ => ⟨200, .arr [mkJob "a", mkJob "b"]⟩

/-- An oracle returning 403 on every call. -/
def authApi : Nat → Resp :=
  fun _ => ⟨403, .null⟩

/-- An oracle returning a page holding the same empty-string-id record
twice. -/
def emptyIdApi : Nat → Resp :=
  fun _ => ⟨200, .arr [mkJob "", mkJob ""]⟩

/-- An oracle returning two successful pages with fresh ids. -/
def twoPageApi : Nat → Resp :=
  fun k =>
    if k = 0 then ⟨200, .arr [mkJob "a", mkJob "b"]⟩
    else ⟨200, .arr [mkJob "c", mkJob "d"]⟩

/-- An oracle returning the identical id-less record on every page. -/
def noIdApi : Nat → Resp :=
  fun _ => ⟨200, .arr [.obj noIdJob]⟩

/-- A job with overlapping keyword sources and six distinct keywords. -/
def kwJob : List (String × JSON) :=
  [("jdCoreSkills", .arr [.obj [("skill", .str "Python")],
      .obj [("skill", .str "Python")], .obj [("skill", .str "SQL")]]),
   ("skillMatchingScores", .arr [.obj [("displayName", .str "Python")],
      .obj [("featureName", .str "AWS")]]),
   ("recommendationTags", .arr [.str "New Grad", .str "Remote", .str "Remote"]),
   ("jobTaxonomyV3", .arr [.str "Software", .str "Software"]),
   ("firstTaxonomy", .str "Engineering")]

/-- The event trace of a four-record run against `twoPageApi`: two
successful page fetches but a single session-state write, at the end. -/
def twoPageTrace : List Ev :=
  [.readState, .navigate,
   .request
     "https://jobright.ai/swan/recommend/list/jobs?refresh=true&sortCondition=0&position=0&count=2",
   .request
     "https://jobright.ai/swan/recommend/list/jobs?refresh=false&sortCondition=0&position=2&count=2",
   .writeState]

/-! ## Theorems -/

/-- Claim C1, counterexample: the claim restricts the key set `K` to keys
with non-null values and states the classification is an iff against
conditions on that `K`; on the mapping whose identifier, title and company
keys all carry null values, the code classifies it as a job candidate
while the claimed conditions reject it, so the iff fails. -/
theorem C1_counterexample :
    is_job nullIdJob = true ∧ specIsJob nullIdJob = false := by decide

/-- Claim C1, amended: Record Discovery classifies a mapping as a Job
Candidate iff, taking `K` to be the set of its present keys (regardless of
whether their values are null), `K` is disjoint from the profile-key set,
meets the identifier-key set, meets the title-key set, and meets the
company-key set or the apply-URL-key set. -/
theorem C1_theorem :
    ∀ kvs, is_job kvs = true ↔
      (keysMeet (kvs.map Prod.fst) PROFILE_KEYS = false ∧
        keysMeet (kvs.map Prod.fst) ID_KEYS = true ∧
        keysMeet (kvs.map Prod.fst) TITLE_KEYS = true ∧
        (keysMeet (kvs.map Prod.fst) COMPANY_KEYS = true ∨
          keysMeet (kvs.map Prod.fst) APPLY_KEYS = true)) := by
  intro kvs
  unfold is_job
  by_cases h : keysMeet (kvs.map Prod.fst) PROFILE_KEYS <;> simp [h, and_assoc]

/-- Claim C2: evaluation at the failing input.  On a job candidate whose
social-connections list holds an entry with the non-string truthy
`jobTitle` value `123`, `extract_linkedin_recruiters` raises
`AttributeError` (calling `.lower()` on an `int`), contradicting the
never-raises contract; the other normalizers degrade gracefully on the
same input. -/
theorem C2_theorem :
    is_job c2Job = true ∧
      extract_linkedin_recruiters c2Job =
        .error "AttributeError: object has no attribute lower" ∧
      extract_company c2Job = some "Acme" ∧
      extract_keywords c2Job 25 = [] :=
  ⟨by decide, rfl, by decide, by decide⟩

/-- Claim C7: company resolution is the fixed five-strategy fallback chain
with the first success winning, and on the two concrete inputs of the
claim it resolves to `"OpenAI"` (from the job summary) and to the verbatim
logo-path segment (`"openai"`, and `"OpenAI"` when capitalised). -/
theorem C7_theorem :
    (∀ job, extract_company job =
      firstSome [companyDirect job, companyNested job, companySocial job,
        companySummary job, companyLogo job]) ∧
    extract_company [("jobSummary", .str "OpenAI is building safe AGI.")] =
      some "OpenAI" ∧
    extract_company [("jdLogo", .str ".../openai_logo.png")] = some "openai" ∧
    extract_company [("jdLogo", .str ".../OpenAI_logo.png")] = some "OpenAI" := by
  refine ⟨fun job => ?_, by decide, by decide, by decide⟩
  unfold extract_company firstSome
  cases companyDirect job <;> cases companyNested job <;>
    cases companySocial job <;> cases companySummary job <;>
    cases companyLogo job <;> simp [firstSome]

/-- Claim C8, counterexample: with cap `m = 0` the keyword list is not
truncated to length `0` — the cap check runs only after the first append,
so one keyword is returned. -/
theorem C8_counterexample :
    extract_keywords [("firstTaxonomy", .str "X")] 0 = ["X"] ∧
      ¬ (extract_keywords [("firstTaxonomy", .str "X")] 0).length ≤ 0 := by
  decide

/-- The capped dedup loop equals the uncapped one followed by `take`. -/
theorem kwDedup_eq_take :
    ∀ (l : List String) (m k : Nat) (seen : List String), k < m →
      kwDedup m k seen l = (dedupTrim seen l).take (m - k) := by
  intro l
  induction l with
  | nil => intro m k seen _; simp [kwDedup, dedupTrim]
  | cons x xs ih =>
    intro m k seen hk
    simp only [kwDedup, dedupTrim]
    split
    · exact ih m k seen hk
    · rename_i hcond
      by_cases hm : m ≤ k + 1
      · have hmk : m - k = 1 := by omega
        simp [hm, hmk]
      · have hlt : k + 1 < m := by omega
        have hmk : m - k = (m - (k + 1)) + 1 := by omega
        simp only [if_neg hm, hmk, List.take_succ_cons]
        rw [ih m (k + 1) (strTrim x :: seen) hlt]

/-- Members of the uncapped dedup list: not previously seen, the trim of a
source entry, and non-empty; and the list has no duplicates. -/
theorem dedupTrim_spec :
    ∀ (l seen : List String), (dedupTrim seen l).Nodup ∧
      ∀ x ∈ dedupTrim seen l,
        x ∉ seen ∧ (∃ z ∈ l, x = strTrim z) ∧ x ≠ "" := by
  intro l
  induction l with
  | nil => intro seen; simp [dedupTrim]
  | cons z zs ih =>
    intro seen
    simp only [dedupTrim]
    split
    · rename_i hcond
      refine ⟨(ih seen).1, fun x hx => ?_⟩
      obtain ⟨h1, ⟨w, hw, hx2⟩, h3⟩ := (ih seen).2 x hx
      exact ⟨h1, ⟨w, List.mem_cons_of_mem z hw, hx2⟩, h3⟩
    · rename_i hcond
      have hcond' : ¬(strTrim z = "" ∨ (seen.contains (strTrim z)) = true) := by
        simpa using hcond
      push_neg at hcond'
      obtain ⟨hne, hnc⟩ := hcond'
      have hnotseen : strTrim z ∉ seen := by
        intro hmem
        exact absurd (List.elem_eq_true_of_mem hmem) (by simpa using hnc)
      constructor
      · refine List.Nodup.cons ?_ (ih (strTrim z :: seen)).1
        intro hmem
        have := ((ih (strTrim z :: seen)).2 _ hmem).1
        exact this (List.mem_cons_self _ _)
      · intro x hx
        rcases List.mem_cons.mp hx with hx | hx
        · subst hx
          exact ⟨hnotseen, ⟨z, List.mem_cons_self _ _, rfl⟩, hne⟩
        · obtain ⟨h1, ⟨w, hw, hx2⟩, h3⟩ := (ih (strTrim z :: seen)).2 x hx
          exact ⟨fun hmem => h1 (List.mem_cons_of_mem _ hmem),
            ⟨w, List.mem_cons_of_mem z hw, hx2⟩, h3⟩

/-- Claim C8, amended: for every job and every cap `m ≥ 1`, the extracted
keyword list is the first-seen-order deduplication of the trimmed,
non-empty keyword sources truncated to `m` entries: it has no duplicates,
every entry is the trim of a source entry and non-empty, its length is at
most `m`, and when at least `m` distinct cleaned keywords are available
exactly `m` are returned.  (The cap `m = 0` is excluded: the code then
still returns one keyword, see the counterexample.) -/
theorem C8_theorem :
    ∀ (job : List (String × JSON)) (m : Nat), 1 ≤ m →
      extract_keywords job m = (cleanKws job).take m ∧
      (extract_keywords job m).Nodup ∧
      (∀ x ∈ extract_keywords job m,
        (∃ z ∈ kwSources job, x = strTrim z) ∧ x ≠ "") ∧
      (extract_keywords job m).length ≤ m ∧
      (m ≤ (cleanKws job).length → (extract_keywords job m).length = m) := by
  intro job m hm
  have heq : extract_keywords job m = (cleanKws job).take m := by
    unfold extract_keywords cleanKws
    rw [kwDedup_eq_take (kwSources job) m 0 [] (by omega), Nat.sub_zero]
  refine ⟨heq, ?_, ?_, ?_, ?_⟩
  · rw [heq]
    exact (dedupTrim_spec (kwSources job) []).1.sublist (List.take_sublist m _)
  · intro x hx
    rw [heq] at hx
    have hx' : x ∈ cleanKws job := List.take_subset m _ hx
    exact ((dedupTrim_spec (kwSources job) []).2 x hx').2
  · rw [heq, List.length_take]
    omega
  · intro hlen
    rw [heq, List.length_take]
    omega

/-- Claim C8, witness: on a job with six distinct keywords spread over
overlapping sources and cap `5`, exactly five unique entries come back. -/
theorem C8_witness : (extract_keywords kwJob 5).length = 5 :=
  (C8_theorem kwJob 5 (by decide)).2.2.2.2 (by decide)

mutual

/-- The walk collects exactly the pre-order sub-objects passing `is_job`. -/
theorem walk_eq_filter : ∀ x : JSON, walk x = (allObjs x).filter is_job
  | .null => rfl
  | .bool _ => rfl
  | .num _ => rfl
  | .str _ => rfl
  | .arr xs => by
    rw [walk, allObjs, walkList_eq_filter xs]
  | .obj kvs => by
    rw [walk, allObjs, walkFields_eq_filter kvs, List.filter_cons]
    by_cases h : is_job kvs <;> simp [h]

theorem walkList_eq_filter : ∀ xs : List JSON,
    walkList xs = (allObjsList xs).filter is_job
  | [] => rfl
  | x :: xs => by
    rw [walkList, allObjsList, List.filter_append, walk_eq_filter x,
      walkList_eq_filter xs]

theorem walkFields_eq_filter : ∀ kvs : List (String × JSON),
    walkFields kvs = (allObjsFields kvs).filter is_job
  | [] => rfl
  | (k, v) :: kvs => by
    rw [walkFields, allObjsFields, List.filter_append, walk_eq_filter v,
      walkFields_eq_filter kvs]

end

/-- Claim C3: Record Discovery returns exactly the sub-objects satisfying
the job-candidate predicate, in depth-first pre-order (the filter of the
pre-order enumeration of all mapping nodes, so parents precede their
descendants and matched objects are still descended into), and no returned
object carries a profile key. -/
theorem C3_theorem :
    ∀ x : JSON, extract_job_dicts x = (allObjs x).filter is_job ∧
      ∀ d ∈ extract_job_dicts x,
        keysMeet (d.map Prod.fst) PROFILE_KEYS = false := by
  intro x
  refine ⟨walk_eq_filter x, fun d hd => ?_⟩
  rw [extract_job_dicts, walk_eq_filter x] at hd
  have hjob : is_job d = true := (List.mem_filter.mp hd).2
  by_contra hmeet
  have hm : keysMeet (d.map Prod.fst) PROFILE_KEYS = true := by
    cases hh : keysMeet (d.map Prod.fst) PROFILE_KEYS
    · exact absurd hh hmeet
    · rfl
  rw [is_job] at hjob
  simp only [hm, if_true] at hjob
  exact Bool.false_ne_true hjob

/-- The auth-failure message contains the failing URL and the HTTP
status. -/
theorem authMsg_contains :
    ∀ (url : String) (status : Nat),
      (∃ a b, authMsg url status = a ++ url ++ b) ∧
      (∃ a b, authMsg url status = a ++ toString status ++ b) := by
  intro url status
  constructor
  · exact ⟨"Auth failed calling ",
      " (HTTP " ++ toString status ++ "). Run with --login again.",
      by simp [authMsg, String.append_assoc]⟩
  · exact ⟨"Auth failed calling " ++ url ++ " (HTTP ",
      "). Run with --login again.",
      by simp [authMsg, String.append_assoc]⟩

/-- Claim C4: when a page request returns 401 or 403, the loop performs
exactly one re-navigation followed by one retry of the identical URL
(trace `request, navigate, request` with the same URL), and when the retry
again returns 401 or 403 the run aborts at once with the
authorization-failure error, whose message contains the failing URL and
the HTTP status; nothing follows the second request in the trace. -/
theorem C4_theorem :
    ∀ (api : Nat → Resp) (maxItems pageSize : Nat) (sortCondition : Int)
      (fuel : Nat) (s : LoopSt),
      s.out.length < maxItems →
      ((api s.k).status = 401 ∨ (api s.k).status = 403) →
      ((api (s.k + 1)).status = 401 ∨ (api (s.k + 1)).status = 403) →
      (runLoop api maxItems pageSize sortCondition (fuel + 1) s =
        some (.error (.permissionError (authMsg
            (mkUrl s.refresh sortCondition s.position
              (min pageSize (maxItems - s.out.length)))
            (api (s.k + 1)).status)),
          [.request (mkUrl s.refresh sortCondition s.position
              (min pageSize (maxItems - s.out.length))),
           .navigate,
           .request (mkUrl s.refresh sortCondition s.position
              (min pageSize (maxItems - s.out.length)))])) ∧
      (∃ a b, authMsg
          (mkUrl s.refresh sortCondition s.position
            (min pageSize (maxItems - s.out.length)))
          (api (s.k + 1)).status =
        a ++ mkUrl s.refresh sortCondition s.position
            (min pageSize (maxItems - s.out.length)) ++ b) ∧
      (∃ a b, authMsg
          (mkUrl s.refresh sortCondition s.position
            (min pageSize (maxItems - s.out.length)))
          (api (s.k + 1)).status =
        a ++ toString (api (s.k + 1)).status ++ b) := by
  intro api maxItems pageSize sortCondition fuel s hlen h1 h2
  have hc1 : ((api s.k).status = 401 || (api s.k).status = 403) = true := by
    rcases h1 with h | h <;> simp [h]
  have hc2 :
      ((api (s.k + 1)).status = 401 || (api (s.k + 1)).status = 403) = true := by
    rcases h2 with h | h <;> simp [h]
  refine ⟨?_, authMsg_contains _ _⟩
  rw [runLoop]
  simp only [if_pos hlen, doRequest, hc1, if_pos rfl]
  simp [hc2]

/-- Claim C4, witness: an oracle answering 403 to every request. -/
theorem C4_witness :
    runLoop authApi 1 1 0 1 initSt =
      some (.error (.permissionError (authMsg (mkUrl true 0 0 1) 403)),
        [.request (mkUrl true 0 0 1), .navigate, .request (mkUrl true 0 0 1)]) :=
  (C4_theorem authApi 1 1 0 0 initSt (by decide) (Or.inr rfl) (Or.inr rfl)).1

/-- Page processing adds to `out` exactly the records it counts in
`added`. -/
theorem processJobs_length (mi : Nat) :
    ∀ (jobs : List (List (String × JSON))) (out : List Rec) (seen : List String)
      (added : Nat) (out' : List Rec) (seen' : List String) (added' : Nat),
      processJobs mi jobs out seen added = .ok (out', seen', added') →
      out'.length + added = out.length + added' := by
  intro jobs
  induction jobs with
  | nil =>
    intro out seen added out' seen' added' h
    simp only [processJobs, Except.ok.injEq, Prod.mk.injEq] at h
    obtain ⟨h1, h2, h3⟩ := h
    subst h1; subst h3
    omega
  | cons j rest ih =>
    intro out seen added out' seen' added' h
    simp only [processJobs] at h
    split at h
    · exact ih _ _ _ _ _ _ h
    · split at h
      · exact absurd h (by simp)
      · split at h
        · simp only [Except.ok.injEq, Prod.mk.injEq] at h
          obtain ⟨h1, h2, h3⟩ := h
          subst h1; subst h3
          simp [List.length_append]
          omega
        · have := ih _ _ _ _ _ _ h
          simp only [List.length_append, List.length_cons, List.length_nil] at this
          omega

/-- Page processing never grows `out` beyond `max_items`. -/
theorem processJobs_bound (mi : Nat) :
    ∀ (jobs : List (List (String × JSON))) (out : List Rec) (seen : List String)
      (added : Nat) (out' : List Rec) (seen' : List String) (added' : Nat),
      processJobs mi jobs out seen added = .ok (out', seen', added') →
      out.length < mi → out'.length ≤ mi := by
  intro jobs
  induction jobs with
  | nil =>
    intro out seen added out' seen' added' h hlt
    simp only [processJobs, Except.ok.injEq, Prod.mk.injEq] at h
    obtain ⟨h1, h2, h3⟩ := h
    subst h1
    omega
  | cons j rest ih =>
    intro out seen added out' seen' added' h hlt
    simp only [processJobs] at h
    split at h
    · exact ih _ _ _ _ _ _ h hlt
    · split at h
      · exact absurd h (by simp)
      · split at h
        · rename_i hbreak
          simp only [Except.ok.injEq, Prod.mk.injEq] at h
          obtain ⟨h1, h2, h3⟩ := h
          subst h1
          simp only [List.length_append, List.length_cons, List.length_nil]
          omega
        · rename_i hbreak
          refine ih _ _ _ _ _ _ h ?_
          simp only [List.length_append, List.length_cons, List.length_nil] at hbreak ⊢
          omega

/-- With fuel exceeding the number of records still needed, the loop
completes: every iteration either stops or strictly grows `out`. -/
theorem runLoop_isSome (api : Nat → Resp) (mi ps : Nat) (sc : Int) :
    ∀ (fuel : Nat) (s : LoopSt), mi - s.out.length < fuel →
      (runLoop api mi ps sc fuel s).isSome := by
  intro fuel
  induction fuel with
  | zero => intro s h; omega
  | succ fuel ih =>
    intro s h
    rw [runLoop]
    split
    · rename_i hlt
      rcases hdr : doRequest api s.k
          (mkUrl s.refresh sc s.position (min ps (mi - s.out.length))) with
        ⟨resp, k', evs⟩
      simp only [hdr]
      split
      · simp
      · split
        · simp
        · split
          · simp
          · split
            · simp
            · rename_i hrecr out1 seen1 added1 heq
              split
              · simp
              · rename_i hadded
                have hlen := processJobs_length mi _ _ _ _ _ _ _ heq
                have hfuel : mi - out1.length < fuel := by omega
                have hs := ih
                  ⟨out1, seen1, s.position + min ps (mi - s.out.length), false, k'⟩
                  (by simpa using hfuel)
                obtain ⟨p, hp⟩ := Option.isSome_iff_exists.mp hs
                rw [hp]
                obtain ⟨res, evs'⟩ := p
                simp
    · simp

/-- The loop never returns more than `max_items` records. -/
theorem runLoop_ok_length (api : Nat → Resp) (mi ps : Nat) (sc : Int) :
    ∀ (fuel : Nat) (s : LoopSt) (res : List Rec) (tr : List Ev),
      runLoop api mi ps sc fuel s = some (.ok res, tr) →
      s.out.length ≤ mi → res.length ≤ mi := by
  intro fuel
  induction fuel with
  | zero => intro s res tr h _; simp [runLoop] at h
  | succ fuel ih =>
    intro s res tr h hb
    rw [runLoop] at h
    split at h
    · rename_i hlt
      rcases hdr : doRequest api s.k
          (mkUrl s.refresh sc s.position (min ps (mi - s.out.length))) with
        ⟨resp, k', evs⟩
      simp only [hdr] at h
      split at h
      · simp at h
      · split at h
        · simp only [Option.some.injEq, Prod.mk.injEq, Except.ok.injEq] at h
          obtain ⟨hr, _⟩ := h
          subst hr
          exact hb
        · split at h
          · simp only [Option.some.injEq, Prod.mk.injEq, Except.ok.injEq] at h
            obtain ⟨hr, _⟩ := h
            subst hr
            exact hb
          · split at h
            · simp at h
            · rename_i out1 seen1 added1 heq
              have hbnd := processJobs_bound mi _ _ _ _ _ _ _ heq hlt
              split at h
              · simp only [Option.some.injEq, Prod.mk.injEq, Except.ok.injEq] at h
                obtain ⟨hr, _⟩ := h
                subst hr
                exact hbnd
              · rcases hrl : runLoop api mi ps sc fuel
                    ⟨out1, seen1, s.position + min ps (mi - s.out.length), false, k'⟩ with
                  _ | ⟨res', evs'⟩ <;> simp only [hrl] at h
                · exact absurd h (by simp)
                · simp only [Option.some.injEq, Prod.mk.injEq] at h
                  obtain ⟨hr, _⟩ := h
                  subst hr
                  exact ih _ _ _ hrl hbnd
    · simp only [Option.some.injEq, Prod.mk.injEq, Except.ok.injEq] at h
      obtain ⟨hr, _⟩ := h
      subst hr
      exact hb

/-- Claim C5: the pagination loop always terminates — fuel exceeding the
number of still-needed records suffices, because every iteration either
stops or strictly increases the result count; the accumulated results
never exceed the requested maximum; and the concrete stall scenario (the
same ids on two consecutive pages) stops the run with only the first
page's unique records. -/
theorem C5_theorem :
    (∀ (api : Nat → Resp) (mi ps : Nat) (sc : Int) (fuel : Nat) (s : LoopSt),
      mi - s.out.length < fuel → (runLoop api mi ps sc fuel s).isSome) ∧
    (∀ (api : Nat → Resp) (mi ps : Nat) (sc : Int) (fuel : Nat),
      (okRecords (fetchRun api mi ps sc fuel)).length ≤ mi) ∧
    resultIds (fetchRun stallApi 10 2 0 5) = some [some "a", some "b"] := by
  refine ⟨runLoop_isSome, ?_, rfl⟩
  intro api mi ps sc fuel
  rcases h : runLoop api mi ps sc fuel initSt with _ | ⟨res, evs⟩
  · simp [fetchRun, h, okRecords]
  · cases res with
    | ok out =>
      have := runLoop_ok_length api mi ps sc fuel initSt out evs h (by simp [initSt])
      simpa [fetchRun, h, okRecords] using this
    | error e => simp [fetchRun, h, okRecords]

/-- Claim C5, witness: the stall oracle with ample fuel completes. -/
theorem C5_witness : (runLoop stallApi 10 2 0 11 initSt).isSome :=
  C5_theorem.1 stallApi 10 2 0 11 initSt (by decide)

/-- The id the built record carries is the probed id. -/
theorem buildRec_jobId (j : List (String × JSON)) (recs : List JSON) :
    (buildRec j recs).jobId = probeId j := rfl

/-- Appending one record extends the present non-empty ids by at most that
record's id. -/
theorem presentIds_append (out : List Rec) (r : Rec) :
    presentNonemptyIds (out ++ [r]) =
      presentNonemptyIds out ++
        (match r.jobId with
         | some s => if s = "" then [] else [s]
         | none => []) := by
  simp only [presentNonemptyIds, List.filterMap_append, List.filter_append]
  congr 1
  cases h : r.jobId with
  | none => simp [h]
  | some s => by_cases hs : s = "" <;> simp [h, hs]

/-- One append preserves the seen-set invariant. -/
theorem step_inv (j : List (String × JSON)) (recs : List JSON) (out : List Rec)
    (seen : List String) (hskip : skipDup (probeId j) seen = false)
    (h1 : (presentNonemptyIds out).Nodup)
    (h2 : ∀ t ∈ presentNonemptyIds out, t ∈ seen) :
    (presentNonemptyIds (out ++ [buildRec j recs])).Nodup ∧
      ∀ t ∈ presentNonemptyIds (out ++ [buildRec j recs]),
        t ∈ seenUpd (probeId j) seen := by
  rw [presentIds_append, buildRec_jobId]
  cases hid : probeId j with
  | none => simpa [seenUpd] using ⟨h1, h2⟩
  | some s =>
    by_cases hs : s = ""
    · subst hs
      simpa [seenUpd] using ⟨h1, h2⟩
    · rw [hid] at hskip
      rw [skipDup.eq_def] at hskip
      simp only [] at hskip
      have hcontains : seen.contains s = false := by simpa [hs] using hskip
      have hnotseen : s ∉ seen := by simpa using hcontains
      have hnotout : s ∉ presentNonemptyIds out := fun hmem => hnotseen (h2 s hmem)
      constructor
      · simp only [if_neg hs, List.nodup_append]
        refine ⟨h1, List.nodup_singleton s, ?_⟩
        intro t ht hts
        rw [List.mem_singleton] at hts
        subst hts
        exact hnotout ht
      · intro t ht
        simp only [if_neg hs, List.mem_append, List.mem_singleton] at ht
        simp only [seenUpd, hid, if_pos hs, List.mem_cons]
        rcases ht with ht | ht
        · exact Or.inr (h2 t ht)
        · exact Or.inl ht

/-- Page processing preserves distinctness of present non-empty ids and
their containment in the seen set. -/
theorem processJobs_nodup (mi : Nat) :
    ∀ (jobs : List (List (String × JSON))) (out : List Rec) (seen : List String)
      (added : Nat) (out' : List Rec) (seen' : List String) (added' : Nat),
      processJobs mi jobs out seen added = .ok (out', seen', added') →
      (presentNonemptyIds out).Nodup →
      (∀ t ∈ presentNonemptyIds out, t ∈ seen) →
      (presentNonemptyIds out').Nodup ∧
        ∀ t ∈ presentNonemptyIds out', t ∈ seen' := by
  intro jobs
  induction jobs with
  | nil =>
    intro out seen added out' seen' added' h h1 h2
    simp only [processJobs, Except.ok.injEq, Prod.mk.injEq] at h
    obtain ⟨ho, hs, _⟩ := h
    subst ho; subst hs
    exact ⟨h1, h2⟩
  | cons j rest ih =>
    intro out seen added out' seen' added' h h1 h2
    simp only [processJobs] at h
    split at h
    · exact ih _ _ _ _ _ _ h h1 h2
    · rename_i hskip
      rw [Bool.not_eq_true] at hskip
      split at h
      · exact absurd h (by simp)
      · rename_i recs hrecs
        have hinv := step_inv j recs out seen hskip h1 h2
        split at h
        · simp only [Except.ok.injEq, Prod.mk.injEq] at h
          obtain ⟨ho, hs, _⟩ := h
          subst ho; subst hs
          exact hinv
        · exact ih _ _ _ _ _ _ h hinv.1 hinv.2

/-- The loop preserves distinctness of present non-empty ids. -/
theorem runLoop_nodup (api : Nat → Resp) (mi ps : Nat) (sc : Int) :
    ∀ (fuel : Nat) (s : LoopSt) (res : List Rec) (tr : List Ev),
      runLoop api mi ps sc fuel s = some (.ok res, tr) →
      (presentNonemptyIds s.out).Nodup →
      (∀ t ∈ presentNonemptyIds s.out, t ∈ s.seen) →
      (presentNonemptyIds res).Nodup := by
  intro fuel
  induction fuel with
  | zero => intro s res tr h _ _; simp [runLoop] at h
  | succ fuel ih =>
    intro s res tr h h1 h2
    rw [runLoop] at h
    split at h
    · rename_i hlt
      rcases hdr : doRequest api s.k
          (mkUrl s.refresh sc s.position (min ps (mi - s.out.length))) with
        ⟨resp, k', evs⟩
      simp only [hdr] at h
      split at h
      · simp at h
      · split at h
        · simp only [Option.some.injEq, Prod.mk.injEq, Except.ok.injEq] at h
          obtain ⟨hr, _⟩ := h
          subst hr
          exact h1
        · split at h
          · simp only [Option.some.injEq, Prod.mk.injEq, Except.ok.injEq] at h
            obtain ⟨hr, _⟩ := h
            subst hr
            exact h1
          · split at h
            · simp at h
            · rename_i out1 seen1 added1 heq
              have hinv := processJobs_nodup mi _ _ _ _ _ _ _ heq h1 h2
              split at h
              · simp only [Option.some.injEq, Prod.mk.injEq, Except.ok.injEq] at h
                obtain ⟨hr, _⟩ := h
                subst hr
                exact hinv.1
              · rcases hrl : runLoop api mi ps sc fuel
                    ⟨out1, seen1, s.position + min ps (mi - s.out.length), false, k'⟩ with
                  _ | ⟨res', evs'⟩ <;> simp only [hrl] at h
                · exact absurd h (by simp)
                · simp only [Option.some.injEq, Prod.mk.injEq] at h
                  obtain ⟨hr, _⟩ := h
                  subst hr
                  exact ih _ _ _ hrl hinv.1 hinv.2
    · simp only [Option.some.injEq, Prod.mk.injEq, Except.ok.injEq] at h
      obtain ⟨hr, _⟩ := h
      subst hr
      exact h1

/-- Claim C6, counterexample: the claim promises no two records with the
same present jobId, but a page holding the same record with the
empty-string id twice yields two records both carrying the present id
`""` — the truthiness test lets empty-string ids bypass the seen set. -/
theorem C6_counterexample :
    resultIds (fetchRun emptyIdApi 2 2 0 4) = some [some "", some ""] ∧
      ¬ ([some "", some ""] : List (Option String)).Nodup :=
  ⟨rfl, by decide⟩

/-- Claim C6, amended: no two returned records carry the same present
non-empty jobId, even when the API returns overlapping pages: a record
whose non-empty id string is already in the seen-ID set is skipped, and
every appended record's non-empty id is added to the set.  (Records whose
id string is empty bypass the seen set, see the counterexample.) -/
theorem C6_theorem :
    ∀ (api : Nat → Resp) (mi ps : Nat) (sc : Int) (fuel : Nat),
      (presentNonemptyIds (okRecords (fetchRun api mi ps sc fuel))).Nodup := by
  intro api mi ps sc fuel
  rcases h : runLoop api mi ps sc fuel initSt with _ | ⟨res, evs⟩
  · simp [fetchRun, h, okRecords, presentNonemptyIds]
  · cases res with
    | ok out =>
      have := runLoop_nodup api mi ps sc fuel initSt out evs h
        (by simp [presentNonemptyIds, initSt])
        (by simp [presentNonemptyIds, initSt])
      simpa [fetchRun, h, okRecords] using this
    | error e => simp [fetchRun, h, okRecords, presentNonemptyIds]

/-- The request-and-retry step emits no session-state events. -/
theorem doRequest_trace (api : Nat → Resp) (k : Nat) (url : String) :
    ((doRequest api k url).2.2).count Ev.readState = 0 ∧
      ((doRequest api k url).2.2).count Ev.writeState = 0 := by
  rw [doRequest]
  split <;> simp [List.count_cons]

/-- The loop body emits no session-state events. -/
theorem runLoop_trace (api : Nat → Resp) (mi ps : Nat) (sc : Int) :
    ∀ (fuel : Nat) (s : LoopSt) (res : Except RunErr (List Rec)) (tr : List Ev),
      runLoop api mi ps sc fuel s = some (res, tr) →
      tr.count Ev.readState = 0 ∧ tr.count Ev.writeState = 0 := by
  intro fuel
  induction fuel with
  | zero => intro s res tr h; simp [runLoop] at h
  | succ fuel ih =>
    intro s res tr h
    rw [runLoop] at h
    split at h
    · rename_i hlt
      rcases hdr : doRequest api s.k
          (mkUrl s.refresh sc s.position (min ps (mi - s.out.length))) with
        ⟨resp, k', evs⟩
      have hcnt := doRequest_trace api s.k
        (mkUrl s.refresh sc s.position (min ps (mi - s.out.length)))
      rw [hdr] at hcnt
      simp only [hdr] at h
      split at h
      · simp only [Option.some.injEq, Prod.mk.injEq] at h
        obtain ⟨_, ht⟩ := h
        subst ht
        exact hcnt
      · split at h
        · simp only [Option.some.injEq, Prod.mk.injEq] at h
          obtain ⟨_, ht⟩ := h
          subst ht
          exact hcnt
        · split at h
          · simp only [Option.some.injEq, Prod.mk.injEq] at h
            obtain ⟨_, ht⟩ := h
            subst ht
            simp [List.count_append, hcnt.1, hcnt.2]
          · split at h
            · simp only [Option.some.injEq, Prod.mk.injEq] at h
              obtain ⟨_, ht⟩ := h
              subst ht
              exact hcnt
            · rename_i out1 seen1 added1 heq
              split at h
              · simp only [Option.some.injEq, Prod.mk.injEq] at h
                obtain ⟨_, ht⟩ := h
                subst ht
                exact hcnt
              · rcases hrl : runLoop api mi ps sc fuel
                    ⟨out1, seen1, s.position + min ps (mi - s.out.length), false, k'⟩ with
                  _ | ⟨res', evs'⟩ <;> simp only [hrl] at h
                · exact absurd h (by simp)
                · have hih := ih _ _ _ hrl
                  simp only [Option.some.injEq, Prod.mk.injEq] at h
                  obtain ⟨_, ht⟩ := h
                  subst ht
                  simp [List.count_append, hcnt.1, hcnt.2, hih.1, hih.2]
    · simp only [Option.some.injEq, Prod.mk.injEq] at h
      obtain ⟨_, ht⟩ := h
      subst ht
      simp

/-- Claim C9, counterexample: a run with two successful page fetches
writes the session state once, after the loop — not after each successful
page as the claim states. -/
theorem C9_counterexample :
    traceOf (fetchRun twoPageApi 4 2 0 5) = some twoPageTrace ∧
      twoPageTrace.countP isRequest = 2 ∧
      twoPageTrace.count Ev.writeState = 1 ∧
      ¬ 2 ≤ twoPageTrace.count Ev.writeState :=
  ⟨rfl, by decide, by decide, by decide⟩

/-- Claim C9, amended: the session state is read exactly once, at the very
start of the run, and rewritten exactly once, at the end of the run after
the pagination loop — and only when no fatal error aborted the run. -/
theorem C9_theorem :
    ∀ (api : Nat → Resp) (mi ps : Nat) (sc : Int) (fuel : Nat)
      (res : Except RunErr (List Rec)) (tr : List Ev),
      fetchRun api mi ps sc fuel = some (res, tr) →
      tr.count Ev.readState = 1 ∧ tr.head? = some Ev.readState ∧
        (match res with
         | .ok _ => tr.count Ev.writeState = 1 ∧ tr.getLast? = some Ev.writeState
         | .error _ => tr.count Ev.writeState = 0) := by
  intro api mi ps sc fuel res tr h
  rw [fetchRun] at h
  rcases hrl : runLoop api mi ps sc fuel initSt with _ | ⟨res0, evs⟩ <;>
    simp only [hrl] at h
  · exact absurd h (by simp)
  · have hcnt := runLoop_trace api mi ps sc fuel initSt res0 evs hrl
    cases res0 with
    | ok out =>
      simp only [Option.some.injEq, Prod.mk.injEq] at h
      obtain ⟨hres, htr⟩ := h
      subst hres; subst htr
      refine ⟨?_, rfl, ?_, ?_⟩
      · simp [List.count_append, List.count_cons, hcnt.1]
      · simp [List.count_append, List.count_cons, hcnt.2]
      · rw [show ([Ev.readState, Ev.navigate] ++ evs ++ [Ev.writeState] :
            List Ev) = ([Ev.readState, Ev.navigate] ++ evs) ++ [Ev.writeState] by
          simp]
        exact List.getLast?_concat _
    | error e =>
      simp only [Option.some.injEq, Prod.mk.injEq] at h
      obtain ⟨hres, htr⟩ := h
      subst hres; subst htr
      exact ⟨by simp [List.count_append, List.count_cons, hcnt.1], rfl,
        by simp [List.count_append, List.count_cons, hcnt.2]⟩

/-- Claim C9, witness: the two-page run instantiates the amended claim. -/
theorem C9_witness :
    twoPageTrace.count Ev.readState = 1 ∧
      twoPageTrace.head? = some Ev.readState ∧
      (twoPageTrace.count Ev.writeState = 1 ∧
        twoPageTrace.getLast? = some Ev.writeState) :=
  C9_theorem twoPageApi 4 2 0 5 _ _ rfl

/-- Claim C10: a record whose probed id is absent is always appended (in
both the page-full and continuing branches), leaves the seen-ID set
unchanged, and increments the newly-added tally; and the identical id-less
record served on two successive pages appears twice in the output. -/
theorem C10_theorem :
    (∀ (mi : Nat) (j : List (String × JSON))
       (rest : List (List (String × JSON))) (out : List Rec)
       (seen : List String) (added : Nat) (recs : List JSON),
      probeId j = none → extract_linkedin_recruiters j = .ok recs →
      processJobs mi (j :: rest) out seen added =
        (if mi ≤ (out ++ [buildRec j recs]).length
         then .ok (out ++ [buildRec j recs], seen, added + 1)
         else processJobs mi rest (out ++ [buildRec j recs]) seen (added + 1)) ∧
      (buildRec j recs).jobId = none) ∧
    resultIds (fetchRun noIdApi 2 1 0 5) = some [none, none] := by
  constructor
  · intro mi j rest out seen added recs hid hrecs
    constructor
    · simp only [processJobs, hid, hrecs, skipDup, seenUpd]
      simp
    · rw [buildRec_jobId, hid]
  · rfl

/-- Claim C10, witness: the concrete id-less candidate is appended with no
seen-set growth and an incremented tally. -/
theorem C10_witness :
    processJobs 5 [noIdJob] [] [] 0 = .ok ([buildRec noIdJob []], [], 1) ∧
      (buildRec noIdJob []).jobId = none := by
  have h := C10_theorem.1 5 noIdJob [] [] [] 0 [] rfl rfl
  refine ⟨?_, h.2⟩
  rw [h.1]
  exact rfl

end JobRight
